import Mathlib

/-!
Verification of the jenkins-monitor schedule-compliance engine.

The definitions below are a shallow embedding of the Rust sources:

* `src/main.rs` — the compliance evaluator (`check_job`,
  `should_job_have_run`, `is_build_failed`), the retrying HTTP getter
  (`http_get_with_retries`) and the build-URL reconciliation
  (`build_api_url_from_last_build`).
* `src/main.rs` — `monitor_jobs`, the compiled binary's per-cycle alert
  emission (the binary declares only `mod config`, so it is the live and
  only alert path).

Instants are modelled as epoch seconds (`Int`); build timestamps keep the
upstream epoch-milliseconds representation, converted with floor division
exactly as `chrono::TimeZone::timestamp_millis_opt(..).timestamp()` does.
Rust `i64` division (`/`, truncation toward zero) is `Int.tdiv`.
-/

deriving instance DecidableEq for Except

namespace JenkinsMonitor

/-- Embeds `struct BuildDetails` from `src/main.rs` (the JSON payload of a
Jenkins build): build number, epoch-millisecond timestamp, optional result
string and display name. -/
structure BuildDetails where
  number : Int
  timestamp : Int
  result : Option String
  displayName : String
deriving DecidableEq

/-- Embeds `is_build_failed` from `src/main.rs`: a build is failed when its
result string is present and differs from `"SUCCESS"`; an absent result
(still-running build) is not a failure. -/
def is_build_failed (build : BuildDetails) : Bool :=
  match build.result with
  | some r => r != "SUCCESS"
  | none => false

/-- Model of the external `cron::Schedule` value used by `src/main.rs`: a
valid cron recurrence is represented by its next-firing function, which the
`cron` crate guarantees to be strictly in the future of its argument
(`Schedule::after` enumerates firings strictly after the given instant, in
increasing order). -/
structure CronSchedule where
  next : Int → Int
  next_gt : ∀ t, t < next t

/-- The stream `schedule.after(&t)` of the `cron` crate, cut to its first
`n` elements: iterated application of the next-firing function starting
strictly after `t`. -/
def firingsAfter (s : CronSchedule) : Int → Nat → List Int
  | _, 0 => []
  | t, n + 1 => s.next t :: firingsAfter s (s.next t) n

/-- The accumulator loop inside `should_job_have_run` (`src/main.rs`):
walk the scheduled times, remember the last one `≤ now`, and stop at the
first one past `now`. -/
def mostRecentLoop (now : Int) : List Int → Option Int → Option Int
  | [], acc => acc
  | t :: ts, acc => if t ≤ now then mostRecentLoop now ts (some t) else acc

/-- Embeds `should_job_have_run` from `src/main.rs`: look back
`threshold_minutes * 2` minutes, enumerate the first 100 scheduled firings
strictly after that instant, and return the most recent one `≤ now`
(`none` models the `Could not find scheduled run time` error). -/
def should_job_have_run (schedule : CronSchedule) (now threshold_minutes : Int) :
    Option Int :=
  let lookback := now - threshold_minutes * 2 * 60
  mostRecentLoop now (firingsAfter schedule lookback 100) none

/-- Embeds the decision core of `check_job` from `src/main.rs`, after the
HTTP fetches have produced `last_build` (or `none` when the job has no
`lastBuild` reference). `some true` is the healthy verdict (`Ok(true)`),
`some false` the overdue verdict (`Ok(false)`), and `none` the evaluation
error (`Err`) raised when no scheduled firing is found in the lookback
window. -/
def check_job (schedule : CronSchedule) (threshold_minutes now : Int)
    (last_build : Option BuildDetails) : Option Bool :=
  match last_build with
  | some build =>
    let build_time := build.timestamp.fdiv 1000
    let minutes_since_build := (now - build_time).tdiv 60
    if is_build_failed build then
      some false
    else
      match should_job_have_run schedule now threshold_minutes with
      | none => none
      | some most_recent_scheduled =>
        let minutes_since_scheduled := (now - most_recent_scheduled).tdiv 60
        if minutes_since_build > minutes_since_scheduled + threshold_minutes then
          some false
        else
          some true
  | none => some false

/-- A strictly periodic recurrence with period `P > 0` seconds, firing at
every multiple of `P`: the model of epoch-aligned cron schedules such as
`0 0 0 * * *` (`P = 86400`) or `0 0 */3 * * *` (`P = 10800`). -/
def periodic (P : Int) (hP : 0 < P) : CronSchedule where
  next t := (t / P + 1) * P
  next_gt t := Int.lt_ediv_add_one_mul_self t hP

/-- The daily-at-midnight schedule `0 0 0 * * *`. -/
def dailyMidnight : CronSchedule := periodic 86400 (by norm_num)

/-- The every-three-hours schedule `0 0 */3 * * *`. -/
def everyThreeHours : CronSchedule := periodic 10800 (by norm_num)

/-! ## Retrying HTTP getter (`http_get_with_retries`, `src/main.rs`) -/

/-- The observable outcome of one HTTP attempt: a transport-level failure
(DNS/connect/timeout) or a response with a status code. -/
inductive Outcome where
  | transportErr
  | response (status : Nat)
deriving DecidableEq

/-- The errors `http_get_with_retries` can return: the precondition error
`max_attempts must be >= 1`, or `request failed after {n} attempts`. -/
inductive RetryErr where
  | invalidMaxAttempts
  | failedAfter (attempts : Nat)
deriving DecidableEq

/-- What a run of `http_get_with_retries` did: its result (`Ok` with the
final status, or an error), the sequence of backoff sleeps performed (in
nanoseconds), and the number of HTTP requests issued. -/
structure RetryTrace where
  result : Except RetryErr Nat
  sleeps : List Nat
  requests : Nat
deriving DecidableEq

/-- `std::time::Duration` saturates at `u64::MAX` seconds plus `999999999`
nanoseconds; `checked_mul(2).unwrap_or(delay)` keeps the old delay once
doubling would overflow. -/
def durationMaxNs : Nat := 18446744073709551616 * 1000000000 - 1

/-- One backoff step: `delay.checked_mul(2).unwrap_or(delay)`. -/
def doubleDelay (d : Nat) : Nat :=
  if 2 * d ≤ durationMaxNs then 2 * d else d

/-- `reqwest::StatusCode::is_server_error`: the 5xx range. -/
def isServerError (status : Nat) : Bool :=
  500 ≤ status && status < 600

/-- The retry loop of `http_get_with_retries` (`src/main.rs`). `outcome i`
is what the transport does on the `i`-th request (1-indexed); `attempt` is
the count of requests already made, `delayNs` the current backoff delay and
`sleeps` the sleeps performed so far. The loop terminates because the
retry branches require `attempt + 1 < max_attempts`; `fuel` makes that
structural, always called with `fuel = max_attempts - attempt`, which the
guards keep positive, so the `fuel = 0` equation is never taken. -/
def retryGo (outcome : Nat → Outcome) (max_attempts : Nat) :
    Nat → Nat → Nat → List Nat → RetryTrace
  | 0, attempt, _, sleeps => ⟨.error (.failedAfter attempt), sleeps, attempt⟩
  | fuel + 1, attempt, delayNs, sleeps =>
    match outcome (attempt + 1) with
    | .response s =>
      if isServerError s ∧ attempt + 1 < max_attempts then
        retryGo outcome max_attempts fuel (attempt + 1) (doubleDelay delayNs)
          (sleeps ++ [delayNs])
      else
        ⟨.ok s, sleeps, attempt + 1⟩
    | .transportErr =>
      if max_attempts ≤ attempt + 1 then
        ⟨.error (.failedAfter (attempt + 1)), sleeps, attempt + 1⟩
      else
        retryGo outcome max_attempts fuel (attempt + 1) (doubleDelay delayNs)
          (sleeps ++ [delayNs])

/-- Embeds `http_get_with_retries` from `src/main.rs`: reject
`max_attempts == 0`, otherwise run the retry loop starting with
`base_delay_ms` milliseconds of backoff. -/
def http_get_with_retries (outcome : Nat → Outcome) (max_attempts : Nat)
    (base_delay_ms : Nat) : RetryTrace :=
  if max_attempts = 0 then ⟨.error .invalidMaxAttempts, [], 0⟩
  else retryGo outcome max_attempts max_attempts 0 (base_delay_ms * 1000000) []

/-! ## Build-URL reconciliation (`build_api_url_from_last_build`, `src/main.rs`)

The `url::Url` values manipulated by the source are modelled by
`ModelUrl`: scheme, host, optional port and an absolute path, all over
`List Char`. The parser below models the behavior of `url::Url::parse`
on the `scheme://host[:port]/path` URLs this program handles: scheme and
host are lowercased and validated, spaces inside a path are
percent-encoded on parse (a WHATWG syntax violation that the parser
repairs rather than rejects), and a space anywhere else makes the parse
fail. -/

/-- Characters the modelled parser accepts in a scheme. -/
def isSchemeChar (c : Char) : Bool :=
  c.isAlpha || c.isDigit || c = '+' || c = '-' || c = '.'

/-- Characters the modelled parser accepts in a host. -/
def isHostChar (c : Char) : Bool :=
  c.isAlphanum || c = '.' || c = '-' || c = '_'

/-- Replace every space by `%20`. This is both the path serialization of
the modelled parser and `str::replace(' ', "%20")` used by the source for
its second parse attempt. -/
def percentEncodeSpaces : List Char → List Char
  | [] => []
  | c :: cs => (if c = ' ' then ['%', '2', '0'] else [c]) ++ percentEncodeSpaces cs

/-- Split a URL string at the first `://`, returning the part before and
the part after; `none` when there is no `://`. -/
def splitSchemeSep : List Char → Option (List Char × List Char)
  | [] => none
  | c :: cs =>
    if c = ':' ∧ cs.take 2 = ['/', '/'] then some ([], cs.drop 2)
    else
      match splitSchemeSep cs with
      | some (a, b) => some (c :: a, b)
      | none => none

/-- Split the remainder after `://` at the first `/` into authority and
path (the path keeps its leading `/`; it is empty when there is none). -/
def splitAuthority : List Char → List Char × List Char
  | [] => ([], [])
  | c :: cs =>
    if c = '/' then ([], c :: cs)
    else
      let r := splitAuthority cs
      (c :: r.1, r.2)

/-- Split an authority at the first `:` into host and optional port text. -/
def splitHostPort : List Char → List Char × Option (List Char)
  | [] => ([], none)
  | c :: cs =>
    if c = ':' then ([], some cs)
    else
      let r := splitHostPort cs
      (c :: r.1, r.2)

/-- Decimal value of a digit string. -/
def digitsToNat (l : List Char) : Nat :=
  l.foldl (fun n c => n * 10 + (c.toNat - Char.toNat '0')) 0

/-- Validate an optional port text: absent or empty means no port; digits
must fit in `u16`. The outer `none` is a parse failure. -/
def parsePort : Option (List Char) → Option (Option Nat)
  | none => some none
  | some [] => some none
  | some ds =>
    if ds.all Char.isDigit && digitsToNat ds < 65536 then
      some (some (digitsToNat ds))
    else
      none

/-- Model of a parsed `url::Url`. -/
structure ModelUrl where
  scheme : List Char
  host : List Char
  port : Option Nat
  path : List Char
deriving DecidableEq

/-- Model of `url::Url::parse` for the URLs this program handles. -/
def parseUrl (l : List Char) : Option ModelUrl :=
  match splitSchemeSep l with
  | none => none
  | some (schemeRaw, rest) =>
    if schemeRaw.isEmpty || !schemeRaw.all isSchemeChar then none
    else
      let ap := splitAuthority rest
      let hp := splitHostPort ap.1
      if hp.1.isEmpty || !hp.1.all isHostChar then none
      else
        match parsePort hp.2 with
        | none => none
        | some port =>
          let path := if ap.2.isEmpty then ['/'] else percentEncodeSpaces ap.2
          some ⟨schemeRaw.map Char.toLower, hp.1.map Char.toLower, port, path⟩

/-- Serialization of a port. -/
def portChars : Option Nat → List Char
  | none => []
  | some p => ':' :: Nat.toDigits 10 p

/-- Serialization of a `ModelUrl` (what `Into<String>` produces). -/
def urlToChars (u : ModelUrl) : List Char :=
  u.scheme ++ [':', '/', '/'] ++ u.host ++ portChars u.port ++ u.path

/-- Remove the segment after the last `/` of a path (the base directory
used when joining a relative reference). -/
def dropAfterLastSlash (l : List Char) : List Char :=
  (l.reverse.dropWhile (fun c => c != '/')).reverse

/-- Model of `url::Url::join`: an absolute reference replaces the path, a
relative one replaces the segment after the last `/`. -/
def urlJoin (u : ModelUrl) (rel : List Char) : ModelUrl :=
  if rel.head? = some '/' then { u with path := percentEncodeSpaces rel }
  else { u with path := dropAfterLastSlash u.path ++ percentEncodeSpaces rel }

/-- The metadata suffix appended to every build URL. -/
def apiJson : List Char := ['a', 'p', 'i', '/', 'j', 's', 'o', 'n']

/-- `if !base.ends_with('/') { base.push('/') }`. -/
def ensureTrailingSlash (l : List Char) : List Char :=
  if l.getLast? = some '/' then l else l ++ ['/']

/-- The errors `build_api_url_from_last_build` can surface:
`Invalid build URL from Jenkins` and `Invalid configured Jenkins base URL`. -/
inductive UrlError where
  | invalidBuildUrl
  | invalidConfiguredBase
deriving DecidableEq

/-- The shared fallthrough of `build_api_url_from_last_build`: keep the
build path, ensure it ends in `/`, rejoin it onto the parsed configured
base and append `api/json`. -/
def rejoinOntoBase (path configured_base : List Char) : Except UrlError (List Char) :=
  let safe_path := ensureTrailingSlash path
  match parseUrl configured_base with
  | none => .error .invalidConfiguredBase
  | some cfg => .ok (urlToChars (urlJoin (urlJoin cfg safe_path) apiJson))

/-- Embeds `build_api_url_from_last_build` from `src/main.rs`. -/
def build_api_url_from_last_build (raw configured_base : List Char) :
    Except UrlError (List Char) :=
  let base := ensureTrailingSlash raw
  match parseUrl base with
  | some u =>
    match parseUrl configured_base with
    | some cfg =>
      if u.scheme = cfg.scheme ∧ u.host = cfg.host then
        .ok (urlToChars (urlJoin u apiJson))
      else
        rejoinOntoBase u.path configured_base
    | none => rejoinOntoBase u.path configured_base
  | none =>
    let safe := percentEncodeSpaces base
    match parseUrl safe with
    | none => .error .invalidBuildUrl
    | some parsed =>
      match parseUrl configured_base with
      | some cfg =>
        if parsed.scheme = cfg.scheme ∧ parsed.host = cfg.host then
          .ok (urlToChars (urlJoin parsed apiJson))
        else
          rejoinOntoBase parsed.path configured_base
      | none => rejoinOntoBase parsed.path configured_base

/-- `build_api_url_from_last_build` at the `String` level. -/
def build_api_url_of_strings (raw configured_base : String) : Except UrlError String :=
  (build_api_url_from_last_build raw.data configured_base.data).map String.mk

/-! ## Live alert emission (`monitor_jobs`, `src/main.rs`) -/

/-- Embeds the alert decision of `monitor_jobs` (`src/main.rs`, lines
711-725 — the only alert path compiled into the binary): on a monitoring
cycle where `check_job` returned `Ok(is_healthy)`, an alert email is sent
exactly when the job is not healthy. `monitor_jobs` keeps no per-job
state: no `last_alert_sent` exists anywhere in `src/main.rs` and no
cooldown is consulted. -/
def monitor_jobs_tick_alert (is_healthy : Bool) : Bool :=
  !is_healthy

/-- The times of the alert emails sent over a sequence of monitoring
cycles, each cycle given by its time and the `is_healthy` verdict
`check_job` returned: the loop is stateless across cycles, so each
unhealthy cycle sends its own email. -/
def monitor_jobs_alertsAt : List (Int × Bool) → List Int
  | [] => []
  | (t, is_healthy) :: ts =>
    if monitor_jobs_tick_alert is_healthy then t :: monitor_jobs_alertsAt ts
    else monitor_jobs_alertsAt ts

/-- Every element of the firing stream lies strictly after its start. -/
theorem firingsAfter_forall_gt (s : CronSchedule) :
    ∀ (n : Nat) (t : Int), ∀ f ∈ firingsAfter s t n, t < f := by
  intro n
  induction n with
  | zero => intro t f hf; simp [firingsAfter] at hf
  | succ n ih =>
    intro t f hf
    simp only [firingsAfter, List.mem_cons] at hf
    rcases hf with rfl | hf
    · exact s.next_gt t
    · exact lt_trans (s.next_gt t) (ih (s.next t) f hf)

/-- The firing stream is strictly increasing. -/
theorem firingsAfter_pairwise (s : CronSchedule) :
    ∀ (n : Nat) (t : Int), (firingsAfter s t n).Pairwise (· < ·) := by
  intro n
  induction n with
  | zero => intro t; simp [firingsAfter]
  | succ n ih =>
    intro t
    simp only [firingsAfter, List.pairwise_cons]
    exact ⟨fun f hf => firingsAfter_forall_gt s n (s.next t) f hf, ih (s.next t)⟩

/-- Accumulator invariant of the `should_job_have_run` loop: starting from a
remembered firing `a ≤ now` that precedes the remaining list, the loop ends
on a firing that is the greatest one `≤ now`. -/
theorem mostRecentLoop_some_acc (now : Int) :
    ∀ (l : List Int) (a : Int), l.Pairwise (· < ·) → (∀ f ∈ l, a < f) → a ≤ now →
      ∃ m, mostRecentLoop now l (some a) = some m ∧ (m = a ∨ m ∈ l) ∧
        a ≤ m ∧ m ≤ now ∧ ∀ f ∈ l, f ≤ now → f ≤ m := by
  intro l
  induction l with
  | nil =>
    intro a _ _ ha
    exact ⟨a, rfl, Or.inl rfl, le_refl a, ha, by simp⟩
  | cons t ts ih =>
    intro a hpair hgt ha
    rw [List.pairwise_cons] at hpair
    by_cases ht : t ≤ now
    · obtain ⟨m, hloop, hmem, htm, hmn, hmax⟩ :=
        ih t hpair.2 (fun f hf => hpair.1 f hf) ht
      refine ⟨m, ?_, ?_, ?_, hmn, ?_⟩
      · simpa [mostRecentLoop, ht] using hloop
      · rcases hmem with rfl | hmem
        · exact Or.inr (List.mem_cons_self _ _)
        · exact Or.inr (List.mem_cons_of_mem _ hmem)
      · exact le_of_lt (lt_of_lt_of_le (hgt t (List.mem_cons_self _ _)) htm)
      · intro f hf hfn
        rcases List.mem_cons.mp hf with rfl | hf
        · exact htm
        · exact hmax f hf hfn
    · refine ⟨a, by simp [mostRecentLoop, ht], Or.inl rfl, le_refl a, ha, ?_⟩
      intro f hf hfn
      rcases List.mem_cons.mp hf with rfl | hf
      · exact absurd hfn ht
      · exact absurd (le_trans (le_of_lt (hpair.1 f hf)) hfn) ht

/-- Characterization of the `should_job_have_run` loop on a strictly
increasing firing list: `none` means every firing is past `now`, and a
`some` result is the greatest firing `≤ now`. -/
theorem mostRecentLoop_spec (now : Int) (l : List Int) (hl : l.Pairwise (· < ·)) :
    (mostRecentLoop now l none = none → ∀ f ∈ l, now < f) ∧
    (∀ m, mostRecentLoop now l none = some m →
      m ∈ l ∧ m ≤ now ∧ ∀ f ∈ l, f ≤ now → f ≤ m) := by
  cases l with
  | nil => exact ⟨fun _ f hf => by simp at hf, fun m hm => by simp [mostRecentLoop] at hm⟩
  | cons t ts =>
    rw [List.pairwise_cons] at hl
    by_cases ht : t ≤ now
    · obtain ⟨m, hloop, hmem, htm, hmn, hmax⟩ :=
        mostRecentLoop_some_acc now ts t hl.2 (fun f hf => hl.1 f hf) ht
      have hrun : mostRecentLoop now (t :: ts) none = some m := by
        simpa [mostRecentLoop, ht] using hloop
      constructor
      · intro hnone; rw [hrun] at hnone; exact absurd hnone (by simp)
      · intro m' hm'
        rw [hrun] at hm'
        obtain rfl : m = m' := by simpa using hm'
        refine ⟨?_, hmn, ?_⟩
        · rcases hmem with rfl | hmem
          · exact List.mem_cons_self _ _
          · exact List.mem_cons_of_mem _ hmem
        · intro f hf hfn
          rcases List.mem_cons.mp hf with rfl | hf
          · exact htm
          · exact hmax f hf hfn
    · have hrun : mostRecentLoop now (t :: ts) none = none := by
        simp [mostRecentLoop, ht]
      constructor
      · intro _ f hf
        rcases List.mem_cons.mp hf with rfl | hf
        · exact lt_of_not_le ht
        · exact lt_trans (lt_of_not_le ht) (hl.1 f hf)
      · intro m hm; rw [hrun] at hm; exact absurd hm (by simp)

/-! ## Helper lemmas: the URL model -/

theorem head?_append_left (l m : List Char) (h : l ≠ []) :
    (l ++ m).head? = l.head? := by
  cases l with
  | nil => exact absurd rfl h
  | cons c cs => rfl

theorem percentEncodeSpaces_ne_nil {l : List Char} (h : l ≠ []) :
    percentEncodeSpaces l ≠ [] := by
  cases l with
  | nil => exact absurd rfl h
  | cons c cs =>
    by_cases hc : c = ' ' <;> simp [percentEncodeSpaces, hc]

theorem percentEncodeSpaces_head (l : List Char) (h : l.head? = some '/') :
    (percentEncodeSpaces l).head? = some '/' := by
  cases l with
  | nil => simp at h
  | cons c cs =>
    obtain rfl : c = '/' := by simpa using h
    simp [percentEncodeSpaces, show ('/' : Char) = ' ' ↔ False by simp]

theorem percentEncodeSpaces_getLast (l : List Char) (h : l.getLast? = some '/') :
    (percentEncodeSpaces l).getLast? = some '/' := by
  induction l with
  | nil => simp at h
  | cons c cs ih =>
    cases hcs : cs with
    | nil =>
      subst hcs
      obtain rfl : c = '/' := by simpa using h
      simp [percentEncodeSpaces, show ('/' : Char) = ' ' ↔ False by simp]
    | cons d ds =>
      subst hcs
      have h2 : (d :: ds).getLast? = some '/' := by
        rw [List.getLast?_cons_cons] at h
        exact h
      have hne : percentEncodeSpaces (d :: ds) ≠ [] :=
        percentEncodeSpaces_ne_nil (by simp)
      calc (percentEncodeSpaces (c :: d :: ds)).getLast?
      _ = ((if c = ' ' then ['%', '2', '0'] else [c]) ++
            percentEncodeSpaces (d :: ds)).getLast? := rfl
      _ = (percentEncodeSpaces (d :: ds)).getLast? :=
        List.getLast?_append_of_ne_nil _ hne
      _ = some '/' := ih h2

theorem percentEncodeSpaces_no_space (l : List Char) :
    ' ' ∉ percentEncodeSpaces l := by
  induction l with
  | nil => simp [percentEncodeSpaces]
  | cons c cs ih =>
    by_cases hc : c = ' '
    · simp only [percentEncodeSpaces, hc, if_pos rfl, List.append_eq, List.mem_append]
      rintro (hm | hm)
      · simp at hm
      · exact ih hm
    · simp only [percentEncodeSpaces, if_neg hc, List.append_eq, List.mem_append]
      rintro (hm | hm)
      · simp at hm; exact hc hm.symm
      · exact ih hm

theorem percentEncodeSpaces_eq_self (l : List Char) (h : ' ' ∉ l) :
    percentEncodeSpaces l = l := by
  induction l with
  | nil => rfl
  | cons c cs ih =>
    have hc : ¬ c = ' ' := fun hcc => h (by simp [hcc])
    simp [percentEncodeSpaces, hc, ih (fun hm => h (List.mem_cons_of_mem _ hm))]

theorem ensureTrailingSlash_getLast (l : List Char) :
    (ensureTrailingSlash l).getLast? = some '/' := by
  unfold ensureTrailingSlash
  by_cases h : l.getLast? = some '/'
  · simp [h]
  · simp [h, List.getLast?_concat]

theorem ensureTrailingSlash_head (l : List Char) (h : l.head? = some '/') :
    (ensureTrailingSlash l).head? = some '/' := by
  unfold ensureTrailingSlash
  split
  · exact h
  · have hne : l ≠ [] := by intro hl; rw [hl] at h; simp at h
    rw [head?_append_left l _ hne]; exact h

theorem ensureTrailingSlash_no_space (l : List Char) (h : ' ' ∉ l) :
    ' ' ∉ ensureTrailingSlash l := by
  unfold ensureTrailingSlash
  split
  · exact h
  · simp only [List.mem_append]
    rintro (hm | hm)
    · exact h hm
    · simp at hm

theorem splitSchemeSep_eq :
    ∀ l a b : List Char, splitSchemeSep l = some (a, b) →
      l = a ++ ':' :: '/' :: '/' :: b := by
  intro l
  induction l with
  | nil => intro a b h; simp [splitSchemeSep] at h
  | cons c cs ih =>
    intro a b h
    simp only [splitSchemeSep] at h
    split at h
    · rename_i hcond
      obtain ⟨rfl, htake⟩ := hcond
      obtain ⟨rfl, rfl⟩ : a = [] ∧ cs.drop 2 = b := by
        simpa using h
      have hcs : cs = ['/', '/'] ++ cs.drop 2 := by
        conv_lhs => rw [← List.take_append_drop 2 cs]
        rw [htake]
      conv_lhs => rw [hcs]
      rfl
    · cases hs : splitSchemeSep cs with
      | none => rw [hs] at h; simp at h
      | some ab =>
        rw [hs] at h
        obtain ⟨a', b'⟩ := ab
        obtain ⟨rfl, rfl⟩ : c :: a' = a ∧ b' = b := by simpa using h
        simp [ih a' b' hs]

theorem splitAuthority_append :
    ∀ l : List Char, (splitAuthority l).1 ++ (splitAuthority l).2 = l := by
  intro l
  induction l with
  | nil => rfl
  | cons c cs ih =>
    simp only [splitAuthority]
    split
    · rfl
    · simpa using ih

theorem splitAuthority_snd_shape (l : List Char) :
    (splitAuthority l).2 = [] ∨ (splitAuthority l).2.head? = some '/' := by
  induction l with
  | nil => left; rfl
  | cons c cs ih =>
    simp only [splitAuthority]
    split
    · rename_i hc
      right; simp [hc]
    · simpa using ih

theorem parseUrl_path_shape (l : List Char) (u : ModelUrl) (h : parseUrl l = some u) :
    ∃ schemeRaw rest, splitSchemeSep l = some (schemeRaw, rest) ∧
      u.path = (if (splitAuthority rest).2.isEmpty then ['/']
        else percentEncodeSpaces (splitAuthority rest).2) := by
  unfold parseUrl at h
  cases hss : splitSchemeSep l with
  | none => rw [hss] at h; exact absurd h (by simp)
  | some sr =>
    obtain ⟨schemeRaw, rest⟩ := sr
    rw [hss] at h
    refine ⟨schemeRaw, rest, rfl, ?_⟩
    simp only at h
    split at h
    · exact absurd h (by simp)
    · split at h
      · exact absurd h (by simp)
      · cases hpp : parsePort (splitHostPort (splitAuthority rest).1).2 with
        | none => rw [hpp] at h; exact absurd h (by simp)
        | some port =>
          rw [hpp] at h
          simp only [Option.some.injEq] at h
          rw [← h]

theorem parseUrl_path_head (l : List Char) (u : ModelUrl) (h : parseUrl l = some u) :
    u.path.head? = some '/' := by
  obtain ⟨schemeRaw, rest, hss, hpath⟩ := parseUrl_path_shape l u h
  rw [hpath]
  split
  · rfl
  · rename_i hne
    rcases splitAuthority_snd_shape rest with h2 | h2
    · rw [h2] at hne; simp at hne
    · exact percentEncodeSpaces_head _ h2

theorem parseUrl_path_no_space (l : List Char) (u : ModelUrl)
    (h : parseUrl l = some u) : ' ' ∉ u.path := by
  obtain ⟨schemeRaw, rest, hss, hpath⟩ := parseUrl_path_shape l u h
  rw [hpath]
  split
  · simp
  · exact percentEncodeSpaces_no_space _

theorem parseUrl_path_getLast (l : List Char) (u : ModelUrl)
    (h : parseUrl l = some u) (hl : l.getLast? = some '/') :
    u.path.getLast? = some '/' := by
  obtain ⟨schemeRaw, rest, hss, hpath⟩ := parseUrl_path_shape l u h
  rw [hpath]
  split
  · rfl
  · rename_i hne
    have hsnd : (splitAuthority rest).2 ≠ [] := by
      intro h0; rw [h0] at hne; simp at hne
    have hl2 : rest.getLast? = some '/' := by
      have heq := splitSchemeSep_eq l schemeRaw rest hss
      have hrest : rest ≠ [] := by
        intro h0
        exact hsnd (by rw [h0]; rfl)
      rw [heq, show schemeRaw ++ ':' :: '/' :: '/' :: rest =
        (schemeRaw ++ [':', '/', '/']) ++ rest by simp] at hl
      rwa [List.getLast?_append_of_ne_nil _ hrest] at hl
    have hl3 : (splitAuthority rest).2.getLast? = some '/' := by
      conv at hl2 => rw [← splitAuthority_append rest]
      rwa [List.getLast?_append_of_ne_nil _ hsnd] at hl2
    exact percentEncodeSpaces_getLast _ hl3

theorem dropAfterLastSlash_of_ends_slash (l : List Char)
    (h : l.getLast? = some '/') : dropAfterLastSlash l = l := by
  obtain ⟨lf, rfl⟩ := List.getLast?_eq_some_iff.mp h
  unfold dropAfterLastSlash
  rw [show (lf ++ ['/']).reverse = '/' :: lf.reverse by simp]
  rw [List.dropWhile_cons]
  simp

theorem urlToChars_join_apiJson (u : ModelUrl) (h : u.path.getLast? = some '/') :
    urlToChars (urlJoin u apiJson) = urlToChars u ++ apiJson := by
  unfold urlJoin
  rw [if_neg (by decide)]
  unfold urlToChars
  simp only
  rw [dropAfterLastSlash_of_ends_slash u.path h,
    show percentEncodeSpaces apiJson = apiJson by decide]
  simp [List.append_assoc]

theorem rejoinOntoBase_spec (path cb : List Char) (cfg : ModelUrl)
    (hcfg : parseUrl cb = some cfg) (hhead : path.head? = some '/')
    (hsp : ' ' ∉ path) :
    rejoinOntoBase path cb =
      .ok (cfg.scheme ++ [':', '/', '/'] ++ cfg.host ++ portChars cfg.port ++
        ensureTrailingSlash path ++ apiJson) := by
  unfold rejoinOntoBase
  rw [hcfg]
  have hsafe_head : (ensureTrailingSlash path).head? = some '/' :=
    ensureTrailingSlash_head _ hhead
  have hsafe_sp : ' ' ∉ ensureTrailingSlash path := ensureTrailingSlash_no_space _ hsp
  have hsafe_last : (ensureTrailingSlash path).getLast? = some '/' :=
    ensureTrailingSlash_getLast _
  have h1 : urlJoin cfg (ensureTrailingSlash path) =
      { cfg with path := ensureTrailingSlash path } := by
    unfold urlJoin
    rw [if_pos hsafe_head, percentEncodeSpaces_eq_self _ hsafe_sp]
  have h2 : urlJoin { cfg with path := ensureTrailingSlash path } apiJson =
      { cfg with path := ensureTrailingSlash path ++ apiJson } := by
    unfold urlJoin
    rw [if_neg (by decide)]
    simp only
    rw [dropAfterLastSlash_of_ends_slash _ hsafe_last,
      show percentEncodeSpaces apiJson = apiJson by decide]
  show Except.ok (urlToChars (urlJoin (urlJoin cfg (ensureTrailingSlash path)) apiJson)) =
    Except.ok (cfg.scheme ++ [':', '/', '/'] ++ cfg.host ++ portChars cfg.port ++
      ensureTrailingSlash path ++ apiJson)
  rw [h1, h2]
  unfold urlToChars
  simp [List.append_assoc]

theorem build_api_url_eq_of_parse (raw cb : List Char) (u cfg : ModelUrl)
    (hu : parseUrl (ensureTrailingSlash raw) = some u)
    (hcfg : parseUrl cb = some cfg) :
    build_api_url_from_last_build raw cb =
      if u.scheme = cfg.scheme ∧ u.host = cfg.host then
        .ok (urlToChars (urlJoin u apiJson))
      else
        rejoinOntoBase u.path cb := by
  simp only [build_api_url_from_last_build]
  rw [hu, hcfg]

theorem build_api_url_eq_of_parse_fail (raw cb : List Char)
    (h1 : parseUrl (ensureTrailingSlash raw) = none)
    (h2 : parseUrl (percentEncodeSpaces (ensureTrailingSlash raw)) = none) :
    build_api_url_from_last_build raw cb = .error .invalidBuildUrl := by
  simp only [build_api_url_from_last_build]
  rw [h1, h2]

/-! ## Claim theorems: compliance evaluation -/

/-- C1: for a job whose last build did not complete with a non-success
result, whenever the schedule lookup finds the most recent expected firing,
`check_job` returns the overdue verdict exactly when the build age in whole
minutes (integer division truncating toward zero) exceeds the schedule age
in whole minutes plus the alert threshold, and the healthy verdict
otherwise. -/
theorem check_job_overdue_iff_age_exceeds (schedule : CronSchedule)
    (threshold_minutes now : Int) (build : BuildDetails) (expected : Int)
    (hfail : is_build_failed build = false)
    (hsched : should_job_have_run schedule now threshold_minutes = some expected) :
    (check_job schedule threshold_minutes now (some build) = some false ↔
      (now - build.timestamp.fdiv 1000).tdiv 60 >
        (now - expected).tdiv 60 + threshold_minutes) ∧
    (check_job schedule threshold_minutes now (some build) = some true ↔
      ¬ (now - build.timestamp.fdiv 1000).tdiv 60 >
        (now - expected).tdiv 60 + threshold_minutes) := by
  simp only [check_job, hfail, hsched, Bool.false_eq_true, if_false]
  by_cases h : (now - build.timestamp.fdiv 1000).tdiv 60 >
      (now - expected).tdiv 60 + threshold_minutes
  · simp [h]
  · simp [h]

/-- Witness for C1: the spec's worked example. Daily-midnight schedule,
threshold 90 minutes, `now = 2025-12-07T01:28:05Z` (epoch 1765070885) and
a successful last build at `2025-12-07T00:00:00Z` (epoch millis
1765065600000): both ages are 88 whole minutes, the expected firing is
midnight, and the verdict is healthy. -/
theorem check_job_overdue_iff_age_exceeds_witness :
    is_build_failed ⟨1, 1765065600000, some "SUCCESS", "#1"⟩ = false ∧
    should_job_have_run dailyMidnight 1765070885 90 = some 1765065600 ∧
    (1765070885 - (1765065600000 : Int).fdiv 1000).tdiv 60 = 88 ∧
    ((1765070885 : Int) - 1765065600).tdiv 60 = 88 ∧
    check_job dailyMidnight 90 1765070885 (some ⟨1, 1765065600000, some "SUCCESS", "#1"⟩) =
      some true :=
  ⟨by decide, by decide, by decide, by decide,
    ((check_job_overdue_iff_age_exceeds dailyMidnight 90 1765070885
        ⟨1, 1765065600000, some "SUCCESS", "#1"⟩ 1765065600 (by decide) (by decide)).2).mpr
      (by decide)⟩

/-- C5: a last build that completed with a non-success result makes
`check_job` return the overdue verdict at once, for every schedule, every
threshold and every instant — the schedule comparison is never consulted. -/
theorem check_job_failed_build_overdue (schedule : CronSchedule)
    (threshold_minutes now : Int) (build : BuildDetails)
    (hfail : is_build_failed build = true) :
    check_job schedule threshold_minutes now (some build) = some false := by
  simp [check_job, hfail]

/-- Witness for C5: a `FAILURE` build is overdue even at parameters where
the schedule lookback would fail (so the schedule comparison is provably
not reached). -/
theorem check_job_failed_build_overdue_witness :
    is_build_failed ⟨7, 0, some "FAILURE", "#7"⟩ = true ∧
    should_job_have_run everyThreeHours 18000 60 = none ∧
    check_job everyThreeHours 60 18000 (some ⟨7, 0, some "FAILURE", "#7"⟩) = some false :=
  ⟨by decide, by decide,
    check_job_failed_build_overdue everyThreeHours 60 18000 _ (by decide)⟩

/-- C6: a job with no build history gets the overdue verdict from
`check_job` unconditionally — for every schedule, threshold and instant. -/
theorem check_job_no_history_overdue (schedule : CronSchedule)
    (threshold_minutes now : Int) :
    check_job schedule threshold_minutes now none = some false := rfl

/-- C8: classification of a build result. An absent result is never a
failure and sends `check_job` into the schedule comparison; the literal
success marker is not a failure; any other non-empty result string is a
failure. -/
theorem build_result_classification :
    (∀ build : BuildDetails, build.result = none → is_build_failed build = false) ∧
    (∀ (schedule : CronSchedule) (threshold_minutes now : Int) (build : BuildDetails),
      build.result = none →
      check_job schedule threshold_minutes now (some build) =
        (match should_job_have_run schedule now threshold_minutes with
         | none => none
         | some expected =>
           if (now - build.timestamp.fdiv 1000).tdiv 60 >
               (now - expected).tdiv 60 + threshold_minutes then
             some false
           else
             some true)) ∧
    (∀ build : BuildDetails, build.result = some "SUCCESS" →
      is_build_failed build = false) ∧
    (∀ (build : BuildDetails) (s : String), build.result = some s →
      s ≠ "" → s ≠ "SUCCESS" → is_build_failed build = true) := by
  refine ⟨?_, ?_, ?_, ?_⟩
  · intro b hb; simp [is_build_failed, hb]
  · intro schedule threshold_minutes now b hb
    have hf : is_build_failed b = false := by simp [is_build_failed, hb]
    simp only [check_job, hf, Bool.false_eq_true, if_false]
  · intro b hb; simp [is_build_failed, hb]
  · intro b s hb _ hs
    simp [is_build_failed, hb, bne_iff_ne, hs]

/-- Witness for C8: a still-running build (result `None`) on the worked
example parameters is treated like a healthy on-time build, and an
`UNSTABLE` result is a failure. -/
theorem build_result_classification_witness :
    is_build_failed ⟨3, 1765065600000, none, "#3"⟩ = false ∧
    check_job dailyMidnight 90 1765070885 (some ⟨3, 1765065600000, none, "#3"⟩) =
      some true ∧
    is_build_failed ⟨4, 0, some "UNSTABLE", "#4"⟩ = true := by
  refine ⟨build_result_classification.1 _ rfl, ?_,
    build_result_classification.2.2.2 _ "UNSTABLE" rfl (by decide) (by decide)⟩
  rw [build_result_classification.2.1 dailyMidnight 90 1765070885 _ rfl]
  decide

/-- C9: a present result string is classified failed exactly when it
differs from `"SUCCESS"`; in particular the empty string — present but
empty — is a failed build and takes the immediate-overdue path of
`check_job`. -/
theorem is_build_failed_iff_ne_success :
    (∀ (build : BuildDetails) (s : String), build.result = some s →
      (is_build_failed build = true ↔ s ≠ "SUCCESS")) ∧
    (∀ (number timestamp : Int) (displayName : String),
      is_build_failed ⟨number, timestamp, some "", displayName⟩ = true) ∧
    (∀ (schedule : CronSchedule) (threshold_minutes now : Int)
      (number timestamp : Int) (displayName : String),
      check_job schedule threshold_minutes now
        (some ⟨number, timestamp, some "", displayName⟩) = some false) := by
  refine ⟨?_, ?_, ?_⟩
  · intro b s hb
    simp [is_build_failed, hb, bne_iff_ne]
  · intro n t d; simp [is_build_failed]
  · intro schedule threshold_minutes now n t d
    simp [check_job, is_build_failed]

/-- Witness for C9: `Some("")` concretely. -/
theorem is_build_failed_iff_ne_success_witness :
    (is_build_failed ⟨5, 0, some "", "#5"⟩ = true ↔ ("" : String) ≠ "SUCCESS") ∧
    check_job dailyMidnight 90 1765070885 (some ⟨5, 0, some "", "#5"⟩) = some false :=
  ⟨is_build_failed_iff_ne_success.1 _ "" rfl,
    is_build_failed_iff_ne_success.2.2 dailyMidnight 90 1765070885 5 0 "#5"⟩

/-! ## Claim theorems: schedule lookback (C3) -/

/-- C3 counterexample: with the every-three-hours schedule, `now = 18000`
and threshold 60 minutes, the schedule fires at 10800, which lies inside
the claim's closed window `[now - 2t, now] = [10800, 18000]` (exactly at
its left endpoint), yet `should_job_have_run` finds no firing and reports
the lookback error: the code only enumerates firings strictly after
`now - 2t`. -/
theorem should_job_have_run_boundary_counterexample :
    should_job_have_run everyThreeHours 18000 60 = none ∧
    everyThreeHours.next 0 = 10800 ∧
    (18000 : Int) - 60 * 2 * 60 ≤ 10800 ∧ (10800 : Int) ≤ 18000 := by
  refine ⟨by decide, by decide, by decide, by decide⟩

/-- C3 amended: `should_job_have_run` enumerates only the first 100
scheduled firings strictly after `now - 2t` minutes (a half-open window):
every enumerated firing is strictly later than `now - 2t`; the error
(`none`) is returned exactly when every enumerated firing is later than
`now`; and a returned firing is the latest enumerated firing `≤ now`. -/
theorem should_job_have_run_spec (schedule : CronSchedule)
    (now threshold_minutes : Int) :
    (∀ f ∈ firingsAfter schedule (now - threshold_minutes * 2 * 60) 100,
      now - threshold_minutes * 2 * 60 < f) ∧
    (should_job_have_run schedule now threshold_minutes = none →
      ∀ f ∈ firingsAfter schedule (now - threshold_minutes * 2 * 60) 100, now < f) ∧
    (∀ m, should_job_have_run schedule now threshold_minutes = some m →
      m ∈ firingsAfter schedule (now - threshold_minutes * 2 * 60) 100 ∧ m ≤ now ∧
      ∀ f ∈ firingsAfter schedule (now - threshold_minutes * 2 * 60) 100,
        f ≤ now → f ≤ m) := by
  have hp := firingsAfter_pairwise schedule 100 (now - threshold_minutes * 2 * 60)
  have hspec :=
    mostRecentLoop_spec now (firingsAfter schedule (now - threshold_minutes * 2 * 60) 100) hp
  exact ⟨fun f hf => firingsAfter_forall_gt schedule 100 _ f hf, hspec.1, hspec.2⟩

/-- Witness for C3 (amended): at `now = 25000`, threshold 60, the
every-three-hours schedule yields the firing 21600, the greatest
enumerated firing `≤ now`. -/
theorem should_job_have_run_spec_witness :
    (21600 : Int) ∈ firingsAfter everyThreeHours (25000 - 60 * 2 * 60) 100 ∧
    (21600 : Int) ≤ 25000 ∧
    ∀ f ∈ firingsAfter everyThreeHours (25000 - 60 * 2 * 60) 100,
      f ≤ 25000 → f ≤ 21600 :=
  (should_job_have_run_spec everyThreeHours 25000 60).2.2 21600 (by decide)

/-! ## Claim theorems: alert cooldown (C2) -/

/-- C2 (code bug): the live alert path of the binary (`monitor_jobs` in
`src/main.rs`) keeps no `last_alert_sent` and consults no cooldown, so an
alert email goes out on every overdue tick. Two consecutive overdue ticks
at 0 s and 600 s — within one one-hour cooldown window — send two alerts,
and a run of N consecutive overdue ticks always sends N alerts,
contradicting the claimed fire-iff-no-prior-alert-or-cooldown-elapsed
gating and its at-most-one-alert-per-window consequence. -/
theorem monitor_jobs_alerts_every_overdue_tick :
    monitor_jobs_alertsAt [(0, false), (600, false)] = [0, 600] ∧
    (monitor_jobs_alertsAt [(0, false), (600, false)]).length = 2 ∧
    ((600 : Int) - 0 ≤ 3600) ∧
    ∀ ts : List Int, monitor_jobs_alertsAt (ts.map (fun t => (t, false))) = ts := by
  refine ⟨by decide, by decide, by decide, ?_⟩
  intro ts
  induction ts with
  | nil => rfl
  | cons t ts ih => simp [monitor_jobs_alertsAt, monitor_jobs_tick_alert, ih]

/-! ## Claim theorems: HTTP retry (C4, C10) -/

/-- When every attempt up to `max_attempts` fails at the transport level,
the retry loop exhausts its attempts and reports the attempt count. -/
theorem retryGo_transport_exhaust (outcome : Nat → Outcome) (max_attempts : Nat) :
    ∀ fuel attempt : Nat, fuel = max_attempts - attempt → attempt < max_attempts →
      (∀ i, attempt < i → i ≤ max_attempts → outcome i = .transportErr) →
      ∀ (delayNs : Nat) (sleeps : List Nat),
        (retryGo outcome max_attempts fuel attempt delayNs sleeps).result =
          .error (.failedAfter max_attempts) := by
  intro fuel
  induction fuel with
  | zero => intro attempt hfe hlt _; omega
  | succ fuel ih =>
    intro attempt hfe hlt hout delayNs sleeps
    have h1 : outcome (attempt + 1) = .transportErr := hout _ (by omega) (by omega)
    simp only [retryGo, h1]
    by_cases hm : max_attempts ≤ attempt + 1
    · have heq : attempt + 1 = max_attempts := by omega
      simp [hm, heq]
    · simp only [if_neg hm]
      exact ih (attempt + 1) (by omega) (by omega)
        (fun i hi h2 => hout i (by omega) h2) _ _

/-- When every attempt before the last returns a 5xx response and the
last attempt returns `s`, the retry loop returns `s` as a non-error. -/
theorem retryGo_server_error_exhaust (outcome : Nat → Outcome) (max_attempts s : Nat)
    (hlast : outcome max_attempts = .response s) :
    ∀ fuel attempt : Nat, fuel = max_attempts - attempt → attempt < max_attempts →
      (∀ i, attempt < i → i < max_attempts →
        ∃ si, outcome i = .response si ∧ isServerError si = true) →
      ∀ (delayNs : Nat) (sleeps : List Nat),
        (retryGo outcome max_attempts fuel attempt delayNs sleeps).result = .ok s := by
  intro fuel
  induction fuel with
  | zero => intro attempt hfe hlt _; omega
  | succ fuel ih =>
    intro attempt hfe hlt hout delayNs sleeps
    by_cases hm : attempt + 1 < max_attempts
    · obtain ⟨si, hsi, hsrv⟩ := hout (attempt + 1) (by omega) hm
      simp only [retryGo, hsi]
      rw [if_pos (show isServerError si = true ∧ attempt + 1 < max_attempts from ⟨hsrv, hm⟩)]
      exact ih (attempt + 1) (by omega) (by omega)
        (fun i hi h2 => hout i (by omega) h2) _ _
    · have heq : attempt + 1 = max_attempts := by omega
      have h1 : outcome (attempt + 1) = .response s := by rw [heq]; exact hlast
      simp only [retryGo, h1]
      rw [if_neg (by omega)]

/-- C4: behavior of `http_get_with_retries`. A non-5xx response at any
attempt is returned immediately, with no extra sleep or request; a 5xx
response or transport failure with attempts remaining sleeps the current
backoff delay, doubles it and retries; exhausting all attempts on
transport failures is the error `request failed after {max_attempts}
attempts`, while exhausting them on 5xx responses returns the last 5xx as
a non-error; concretely, 503,503,200 under `max_attempts = 3` returns the
200 after backoff sleeps of 500ms and 1000ms, and 503,503,503 returns the
last 503. -/
theorem http_get_with_retries_spec :
    (∀ (outcome : Nat → Outcome) (max_attempts fuel attempt delayNs : Nat)
      (sleeps : List Nat) (s : Nat),
      outcome (attempt + 1) = .response s → isServerError s = false →
      retryGo outcome max_attempts (fuel + 1) attempt delayNs sleeps =
        ⟨.ok s, sleeps, attempt + 1⟩) ∧
    (∀ (outcome : Nat → Outcome) (max_attempts fuel attempt delayNs : Nat)
      (sleeps : List Nat) (s : Nat),
      outcome (attempt + 1) = .response s → isServerError s = true →
      attempt + 1 < max_attempts →
      retryGo outcome max_attempts (fuel + 1) attempt delayNs sleeps =
        retryGo outcome max_attempts fuel (attempt + 1) (doubleDelay delayNs)
          (sleeps ++ [delayNs])) ∧
    (∀ (outcome : Nat → Outcome) (max_attempts fuel attempt delayNs : Nat)
      (sleeps : List Nat),
      outcome (attempt + 1) = .transportErr → attempt + 1 < max_attempts →
      retryGo outcome max_attempts (fuel + 1) attempt delayNs sleeps =
        retryGo outcome max_attempts fuel (attempt + 1) (doubleDelay delayNs)
          (sleeps ++ [delayNs])) ∧
    (∀ (outcome : Nat → Outcome) (max_attempts base_delay_ms : Nat),
      1 ≤ max_attempts →
      (∀ i, 1 ≤ i → i ≤ max_attempts → outcome i = .transportErr) →
      (http_get_with_retries outcome max_attempts base_delay_ms).result =
        .error (.failedAfter max_attempts)) ∧
    (∀ (outcome : Nat → Outcome) (max_attempts base_delay_ms s : Nat),
      1 ≤ max_attempts → isServerError s = true →
      outcome max_attempts = .response s →
      (∀ i, 1 ≤ i → i < max_attempts →
        ∃ si, outcome i = .response si ∧ isServerError si = true) →
      (http_get_with_retries outcome max_attempts base_delay_ms).result = .ok s) ∧
    (http_get_with_retries (fun i => if i ≤ 2 then .response 503 else .response 200) 3 500 =
      ⟨.ok 200, [500000000, 1000000000], 3⟩) ∧
    (http_get_with_retries (fun _ => .response 503) 3 500 =
      ⟨.ok 503, [500000000, 1000000000], 3⟩) := by
  refine ⟨?_, ?_, ?_, ?_, ?_, by decide, by decide⟩
  · intro outcome max_attempts fuel attempt delayNs sleeps s h1 h2
    simp only [retryGo, h1]
    rw [if_neg (by simp [h2])]
  · intro outcome max_attempts fuel attempt delayNs sleeps s h1 h2 h3
    simp only [retryGo, h1]
    rw [if_pos (show isServerError s = true ∧ attempt + 1 < max_attempts from ⟨h2, h3⟩)]
  · intro outcome max_attempts fuel attempt delayNs sleeps h1 h2
    simp only [retryGo, h1]
    rw [if_neg (by omega)]
  · intro outcome max_attempts base_delay_ms hmax hout
    have hne : ¬ max_attempts = 0 := by omega
    simp only [http_get_with_retries, if_neg hne]
    exact retryGo_transport_exhaust outcome max_attempts max_attempts 0 (by omega)
      (by omega) (fun i hi _ => hout i (by omega) (by omega)) _ _
  · intro outcome max_attempts base_delay_ms s hmax hs hlast hout
    have hne : ¬ max_attempts = 0 := by omega
    simp only [http_get_with_retries, if_neg hne]
    exact retryGo_server_error_exhaust outcome max_attempts s hlast max_attempts 0
      (by omega) (by omega) (fun i hi h2 => hout i (by omega) h2) _ _

/-- Witness for C4: a 404 on the first attempt is returned at once with
no sleeps and one request; three transport failures exhaust the three
attempts into an error; three 503s return the last 503 as a non-error. -/
theorem http_get_with_retries_spec_witness :
    http_get_with_retries (fun _ => .response 404) 3 500 = ⟨.ok 404, [], 1⟩ ∧
    (http_get_with_retries (fun _ => .transportErr) 3 500).result =
      .error (.failedAfter 3) ∧
    (http_get_with_retries (fun _ => .response 503) 3 500).result = .ok 503 := by
  refine ⟨?_, ?_, ?_⟩
  · have h := http_get_with_retries_spec.1 (fun _ => .response 404) 3 2 0 500000000 [] 404
      rfl (by decide)
    simpa [http_get_with_retries] using h
  · exact http_get_with_retries_spec.2.2.2.1 (fun _ => .transportErr) 3 500 (by decide)
      (fun i _ _ => rfl)
  · exact http_get_with_retries_spec.2.2.2.2.1 (fun _ => .response 503) 3 500 503
      (by decide) (by decide) rfl (fun i _ _ => ⟨503, rfl, by decide⟩)

/-! ## Claim theorems: build-URL reconciliation (C7) -/

/-- C7: reconciliation of the upstream last-build URL with the configured
base. When the raw URL (trailing slash ensured) parses and its scheme and
host equal the configured base's, the build API URL is that URL with
`api/json` appended; otherwise the raw host is discarded and the raw path
is rejoined onto the configured base before appending `api/json` — in
particular raw `http://10.0.0.5:8080/job/x/15/` with base
`https://ci.example.com/` yields
`https://ci.example.com/job/x/15/api/json`; a raw URL that fails to parse
is reparsed once after percent-encoding spaces, and the malformed-URL
error is surfaced only when that second parse also fails. -/
theorem build_api_url_reconciliation :
    (∀ (raw configured_base : List Char) (u cfg : ModelUrl),
      parseUrl (ensureTrailingSlash raw) = some u →
      parseUrl configured_base = some cfg →
      u.scheme = cfg.scheme → u.host = cfg.host →
      build_api_url_from_last_build raw configured_base =
        .ok (urlToChars u ++ apiJson)) ∧
    (∀ (raw configured_base : List Char) (u cfg : ModelUrl),
      parseUrl (ensureTrailingSlash raw) = some u →
      parseUrl configured_base = some cfg →
      ¬ (u.scheme = cfg.scheme ∧ u.host = cfg.host) →
      build_api_url_from_last_build raw configured_base =
        .ok (cfg.scheme ++ [':', '/', '/'] ++ cfg.host ++ portChars cfg.port ++
          ensureTrailingSlash u.path ++ apiJson)) ∧
    (build_api_url_of_strings "http://10.0.0.5:8080/job/x/15/" "https://ci.example.com/" =
      .ok "https://ci.example.com/job/x/15/api/json") ∧
    (∀ raw configured_base : List Char,
      parseUrl (ensureTrailingSlash raw) = none →
      parseUrl (percentEncodeSpaces (ensureTrailingSlash raw)) = none →
      build_api_url_from_last_build raw configured_base =
        .error .invalidBuildUrl) := by
  refine ⟨?_, ?_, by decide, ?_⟩
  · intro raw cb u cfg hu hcfg hsch hhost
    have hlast : u.path.getLast? = some '/' :=
      parseUrl_path_getLast _ u hu (ensureTrailingSlash_getLast raw)
    rw [build_api_url_eq_of_parse raw cb u cfg hu hcfg,
      if_pos (show u.scheme = cfg.scheme ∧ u.host = cfg.host from ⟨hsch, hhost⟩),
      urlToChars_join_apiJson u hlast]
  · intro raw cb u cfg hu hcfg hne
    rw [build_api_url_eq_of_parse raw cb u cfg hu hcfg, if_neg hne]
    exact rejoinOntoBase_spec u.path cb cfg hcfg (parseUrl_path_head _ u hu)
      (parseUrl_path_no_space _ u hu)
  · exact build_api_url_eq_of_parse_fail

/-- Witness for C7: a same-host raw URL without trailing slash is used
as-is (slash restored) with the `api/json` suffix appended. -/
theorem build_api_url_reconciliation_witness :
    build_api_url_of_strings "https://jenkins.local/job/myjob/15" "https://jenkins.local/" =
      .ok "https://jenkins.local/job/myjob/15/api/json" := by
  have h := build_api_url_reconciliation.1 ("https://jenkins.local/job/myjob/15").data
    ("https://jenkins.local/").data
    ⟨"https".data, "jenkins.local".data, none, "/job/myjob/15/".data⟩
    ⟨"https".data, "jenkins.local".data, none, "/".data⟩
    (by decide) (by decide) rfl rfl
  simp only [build_api_url_of_strings, h]
  decide

/-- C10: calling the retrying getter with `max_attempts = 0` is rejected
up front — the precondition error `max_attempts must be >= 1` is returned
with no request issued and no sleep performed, for every transport
behavior and every base delay. -/
theorem http_get_with_retries_zero_attempts (outcome : Nat → Outcome)
    (base_delay_ms : Nat) :
    http_get_with_retries outcome 0 base_delay_ms =
      ⟨.error .invalidMaxAttempts, [], 0⟩ := rfl

end JenkinsMonitor
